import Mathlib

/-!
Verification of the token-packing pipeline of `scripts/prepare_wudao.py` and the
configuration registry of `lit_gpt/config.py` (TinyTestLlama repository).

The shallow embedding works over `List Nat` token sequences.  Token arrays,
numpy buffers and on-disk shard bodies are all modelled as lists of natural
numbers; machine integers never overflow in the modelled quantities (token ids,
counts and indices are unbounded naturals in Python as well).
-/

set_option autoImplicit false

/-- Modelled from the spec: `lit_gpt.packed_dataset.PackedDatasetBuilder` is
imported by `scripts/prepare_wudao.py` but its source file is not part of this
snapshot.  The builder state follows §3 "BuilderState" and §4.1 "Chunk Builder"
of the spec: an in-memory token buffer (`PackBuffer`) of tokens not yet emitted,
plus the bodies of the shards already written, kept in `shard_index` order
(shard `i` of this builder is `shards[i]`). -/
structure PackedDatasetBuilder where
  chunk_size : Nat
  sep_token : Nat
  buffer : List Nat
  shards : List (List Nat)
  deriving Repr, DecidableEq

/-- Fuel-indexed worker for `flushChunks`; the fuel is only there to make the
recursion structural (each iteration strictly shrinks the buffer, so
`buf.length` fuel always suffices). -/
def flushChunksAux (chunkSize : Nat) : Nat → List Nat → List (List Nat) × List Nat
  | 0, buf => ([], buf)
  | fuel + 1, buf =>
    if 0 < chunkSize ∧ chunkSize ≤ buf.length then
      let r := flushChunksAux chunkSize fuel (buf.drop chunkSize)
      (buf.take chunkSize :: r.1, r.2)
    else
      ([], buf)

/-- Modelled from the spec: the flush loop of §4.1 `append` — "while buffer
length ≥ chunkSize, removes the first chunkSize tokens (FIFO order) and writes
them as a new Shard".  Returns the emitted shard bodies in emission order and
the remaining buffer. -/
def flushChunks (chunkSize : Nat) (buf : List Nat) : List (List Nat) × List Nat :=
  flushChunksAux chunkSize buf.length buf

/-- Modelled from the spec: §4.1 `append(tokens)` "pushes sepToken then tokens
onto the buffer", then flushes full chunks.  This is the builder call performed
by `builder.add_array(...)` at `scripts/prepare_wudao.py:64`. -/
def PackedDatasetBuilder.add_array (b : PackedDatasetBuilder) (arr : List Nat) :
    PackedDatasetBuilder :=
  let r := flushChunks b.chunk_size (b.buffer ++ b.sep_token :: arr)
  { b with buffer := r.2, shards := b.shards ++ r.1 }

/-- Modelled from the spec: §4.1 `finalize()` "discards any remaining buffer
content"; no partial shard is written.  This matches the deliberately
commented-out `builder.write_reminder()` at `scripts/prepare_wudao.py:67`. -/
def PackedDatasetBuilder.finalize (b : PackedDatasetBuilder) : PackedDatasetBuilder :=
  { b with buffer := [] }

/-- Modelled from the spec: a freshly constructed builder (§4.1 `new`) has an
empty buffer and no shards. -/
def PackedDatasetBuilder.new (chunkSize sepToken : Nat) : PackedDatasetBuilder :=
  ⟨chunkSize, sepToken, [], []⟩

theorem PackedDatasetBuilder.new_buffer (chunkSize sepToken : Nat) :
    (PackedDatasetBuilder.new chunkSize sepToken).buffer = [] := rfl

theorem PackedDatasetBuilder.new_shards (chunkSize sepToken : Nat) :
    (PackedDatasetBuilder.new chunkSize sepToken).shards = [] := rfl

theorem PackedDatasetBuilder.new_chunk_size (chunkSize sepToken : Nat) :
    (PackedDatasetBuilder.new chunkSize sepToken).chunk_size = chunkSize := rfl

theorem PackedDatasetBuilder.new_sep_token (chunkSize sepToken : Nat) :
    (PackedDatasetBuilder.new chunkSize sepToken).sep_token = sepToken := rfl

/-- The separator-interleaved token stream: one `sep` token inserted before each
document's tokens (spec §3 invariant 3 and the worker loop of
`scripts/prepare_wudao.py:58-64`). -/
def sepInterleaved (sep : Nat) (docs : List (List Nat)) : List Nat :=
  docs.flatMap fun d => sep :: d

/-- The worker's document loop (`scripts/prepare_wudao.py:58-64`): every
document's token array is appended to the builder in order. -/
def processDocs (b : PackedDatasetBuilder) (docs : List (List Nat)) :
    PackedDatasetBuilder :=
  docs.foldl PackedDatasetBuilder.add_array b

theorem flushChunksAux_flatten (chunkSize : Nat) :
    ∀ (fuel : Nat) (buf : List Nat),
      (flushChunksAux chunkSize fuel buf).1.flatten ++
        (flushChunksAux chunkSize fuel buf).2 = buf := by
  intro fuel
  induction fuel with
  | zero => intro buf; simp [flushChunksAux]
  | succ n ih =>
    intro buf
    by_cases h : 0 < chunkSize ∧ chunkSize ≤ buf.length
    · simp only [flushChunksAux, if_pos h, List.flatten_cons, List.append_assoc]
      rw [ih (buf.drop chunkSize), List.take_append_drop]
    · simp [flushChunksAux, if_neg h]

theorem flushChunksAux_shard_length (chunkSize : Nat) :
    ∀ (fuel : Nat) (buf : List Nat) (s : List Nat),
      s ∈ (flushChunksAux chunkSize fuel buf).1 → s.length = chunkSize := by
  intro fuel
  induction fuel with
  | zero => intro buf s hs; simp [flushChunksAux] at hs
  | succ n ih =>
    intro buf s hs
    by_cases h : 0 < chunkSize ∧ chunkSize ≤ buf.length
    · simp only [flushChunksAux, if_pos h, List.mem_cons] at hs
      rcases hs with hs | hs
      · subst hs; simp [List.length_take]; omega
      · exact ih _ _ hs
    · simp [flushChunksAux, if_neg h] at hs

theorem flushChunksAux_rest_lt (chunkSize : Nat) (hpos : 0 < chunkSize) :
    ∀ (fuel : Nat) (buf : List Nat), buf.length ≤ fuel →
      (flushChunksAux chunkSize fuel buf).2.length < chunkSize := by
  intro fuel
  induction fuel with
  | zero =>
    intro buf hb
    simp only [flushChunksAux]
    omega
  | succ n ih =>
    intro buf hb
    by_cases h : 0 < chunkSize ∧ chunkSize ≤ buf.length
    · simp only [flushChunksAux, if_pos h]
      exact ih (buf.drop chunkSize) (by simp [List.length_drop]; omega)
    · simp only [flushChunksAux, if_neg h]
      omega

theorem flushChunks_flatten (chunkSize : Nat) (buf : List Nat) :
    (flushChunks chunkSize buf).1.flatten ++ (flushChunks chunkSize buf).2 = buf :=
  flushChunksAux_flatten chunkSize buf.length buf

theorem flushChunks_shard_length (chunkSize : Nat) (buf : List Nat) (s : List Nat)
    (hs : s ∈ (flushChunks chunkSize buf).1) : s.length = chunkSize :=
  flushChunksAux_shard_length chunkSize buf.length buf s hs

theorem flushChunks_rest_lt (chunkSize : Nat) (hpos : 0 < chunkSize) (buf : List Nat) :
    (flushChunks chunkSize buf).2.length < chunkSize :=
  flushChunksAux_rest_lt chunkSize hpos buf.length buf le_rfl

example :
    processDocs (PackedDatasetBuilder.new 4 1) [[5, 6, 7], [8], [9, 10]] =
      ⟨4, 1, [10], [[1, 5, 6, 7], [1, 8, 1, 9]]⟩ := by decide

theorem processDocs_chunk_size (docs : List (List Nat)) :
    ∀ b : PackedDatasetBuilder, (processDocs b docs).chunk_size = b.chunk_size := by
  induction docs with
  | nil => intro b; rfl
  | cons d docs ih =>
    intro b
    show (processDocs (b.add_array d) docs).chunk_size = b.chunk_size
    rw [ih]
    rfl

theorem processDocs_sep_token (docs : List (List Nat)) :
    ∀ b : PackedDatasetBuilder, (processDocs b docs).sep_token = b.sep_token := by
  induction docs with
  | nil => intro b; rfl
  | cons d docs ih =>
    intro b
    show (processDocs (b.add_array d) docs).sep_token = b.sep_token
    rw [ih]
    rfl

/-- No token is ever lost or reordered: the emitted shards followed by the
left-over buffer always equal the previous state's content extended by the
separator-interleaved stream of the processed documents. -/
theorem processDocs_stream (docs : List (List Nat)) :
    ∀ b : PackedDatasetBuilder,
      (processDocs b docs).shards.flatten ++ (processDocs b docs).buffer =
        b.shards.flatten ++ b.buffer ++ sepInterleaved b.sep_token docs := by
  induction docs with
  | nil => intro b; simp [processDocs, sepInterleaved]
  | cons d docs ih =>
    intro b
    show (processDocs (b.add_array d) docs).shards.flatten ++
        (processDocs (b.add_array d) docs).buffer = _
    rw [ih (b.add_array d)]
    show (b.shards ++ (flushChunks b.chunk_size (b.buffer ++ b.sep_token :: d)).1).flatten ++
        (flushChunks b.chunk_size (b.buffer ++ b.sep_token :: d)).2 ++
        sepInterleaved b.sep_token docs = _
    rw [List.flatten_append, List.append_assoc _ _ (flushChunks _ _).2,
      flushChunks_flatten]
    simp [sepInterleaved]

theorem processDocs_shard_mem (docs : List (List Nat)) :
    ∀ b : PackedDatasetBuilder, ∀ s ∈ (processDocs b docs).shards,
      s ∈ b.shards ∨ s.length = b.chunk_size := by
  induction docs with
  | nil => intro b s hs; exact Or.inl hs
  | cons d docs ih =>
    intro b s hs
    have hs' := ih (b.add_array d) s hs
    rcases hs' with hs' | hs'
    · have : s ∈ b.shards ++ (flushChunks b.chunk_size (b.buffer ++ b.sep_token :: d)).1 := hs'
      rw [List.mem_append] at this
      rcases this with h | h
      · exact Or.inl h
      · exact Or.inr (flushChunks_shard_length _ _ _ h)
    · exact Or.inr hs'

theorem processDocs_buffer_lt (docs : List (List Nat)) :
    ∀ b : PackedDatasetBuilder, 0 < b.chunk_size → b.buffer.length < b.chunk_size →
      (processDocs b docs).buffer.length < b.chunk_size := by
  induction docs with
  | nil => intro b _ hb; exact hb
  | cons d docs ih =>
    intro b hpos _
    exact ih (b.add_array d) hpos (flushChunks_rest_lt b.chunk_size hpos _)

theorem flatten_length_const (c : Nat) :
    ∀ L : List (List Nat), (∀ s ∈ L, s.length = c) → L.flatten.length = L.length * c := by
  intro L
  induction L with
  | nil => intro _; simp
  | cons s L ih =>
    intro h
    have hs : s.length = c := h s (List.mem_cons_self s L)
    have hL : ∀ t ∈ L, t.length = c := fun t ht => h t (List.mem_cons_of_mem s ht)
    simp [List.length_append, hs, ih hL, Nat.succ_mul, Nat.add_comm]

theorem chunk_count_arith (k c r : Nat) (hpos : 0 < c) (hr : r < c) :
    (k * c + r) / c = k ∧ (k * c + r) % c = r := by
  have h1 : k * c + r = r + c * k := by ring
  constructor
  · rw [h1, Nat.add_mul_div_left _ _ hpos, Nat.div_eq_of_lt hr, Nat.zero_add]
  · rw [h1, Nat.add_mul_mod_self_left, Nat.mod_eq_of_lt hr]

/-- **C1**: for every builder and sequence of `append` calls whose
separator-interleaved total token count is `T`, exactly `T / chunkSize` shards
are emitted, each shard body holds exactly `chunkSize` tokens, their
concatenation in shard-index order is exactly the first `T / chunkSize * chunkSize`
tokens of the interleaved stream, and the builder's left-over buffer is exactly
the final `T % chunkSize` tokens (the only tokens dropped at finalize). -/
theorem C1_builder_chunk_packing (chunkSize sepToken : Nat) (docs : List (List Nat))
    (hpos : 0 < chunkSize) :
    (processDocs (PackedDatasetBuilder.new chunkSize sepToken) docs).shards.length =
      (sepInterleaved sepToken docs).length / chunkSize ∧
    (∀ s ∈ (processDocs (PackedDatasetBuilder.new chunkSize sepToken) docs).shards,
      s.length = chunkSize) ∧
    (processDocs (PackedDatasetBuilder.new chunkSize sepToken) docs).shards.flatten =
      (sepInterleaved sepToken docs).take
        ((sepInterleaved sepToken docs).length / chunkSize * chunkSize) ∧
    (processDocs (PackedDatasetBuilder.new chunkSize sepToken) docs).buffer =
      (sepInterleaved sepToken docs).drop
        ((sepInterleaved sepToken docs).length / chunkSize * chunkSize) ∧
    (processDocs (PackedDatasetBuilder.new chunkSize sepToken) docs).buffer.length =
      (sepInterleaved sepToken docs).length % chunkSize := by
  have hstream := processDocs_stream docs (PackedDatasetBuilder.new chunkSize sepToken)
  simp only [PackedDatasetBuilder.new_shards, PackedDatasetBuilder.new_buffer,
    PackedDatasetBuilder.new_sep_token, List.flatten_nil, List.nil_append,
    List.append_nil] at hstream
  have hmem : ∀ s ∈ (processDocs (PackedDatasetBuilder.new chunkSize sepToken) docs).shards,
      s.length = chunkSize := by
    intro s hs
    have h := processDocs_shard_mem docs (PackedDatasetBuilder.new chunkSize sepToken) s hs
    rw [PackedDatasetBuilder.new_shards, PackedDatasetBuilder.new_chunk_size] at h
    simp only [List.not_mem_nil, false_or] at h
    exact h
  have hbuf : (processDocs (PackedDatasetBuilder.new chunkSize sepToken) docs).buffer.length <
      chunkSize := by
    have h := processDocs_buffer_lt docs (PackedDatasetBuilder.new chunkSize sepToken)
    rw [PackedDatasetBuilder.new_chunk_size, PackedDatasetBuilder.new_buffer] at h
    exact h hpos (by simpa using hpos)
  have hflat : (processDocs (PackedDatasetBuilder.new chunkSize sepToken) docs).shards.flatten.length =
      (processDocs (PackedDatasetBuilder.new chunkSize sepToken) docs).shards.length * chunkSize :=
    flatten_length_const chunkSize _ hmem
  have hT : (sepInterleaved sepToken docs).length =
      (processDocs (PackedDatasetBuilder.new chunkSize sepToken) docs).shards.length * chunkSize +
      (processDocs (PackedDatasetBuilder.new chunkSize sepToken) docs).buffer.length := by
    rw [← hstream, List.length_append, hflat]
  have harith := chunk_count_arith
    (processDocs (PackedDatasetBuilder.new chunkSize sepToken) docs).shards.length chunkSize
    (processDocs (PackedDatasetBuilder.new chunkSize sepToken) docs).buffer.length hpos hbuf
  have hdiv : (sepInterleaved sepToken docs).length / chunkSize =
      (processDocs (PackedDatasetBuilder.new chunkSize sepToken) docs).shards.length := by
    rw [hT, harith.1]
  have hmod : (sepInterleaved sepToken docs).length % chunkSize =
      (processDocs (PackedDatasetBuilder.new chunkSize sepToken) docs).buffer.length := by
    rw [hT, harith.2]
  refine ⟨hdiv.symm, hmem, ?_, ?_, hmod.symm⟩
  · rw [hdiv, ← hflat, ← hstream, List.take_left]
  · rw [hdiv, ← hflat, ← hstream, List.drop_left]

theorem C1_builder_chunk_packing_witness :
    0 < 4 ∧
    ((processDocs (PackedDatasetBuilder.new 4 1) [[5, 6, 7], [8], [9, 10]]).shards.length =
      (sepInterleaved 1 [[5, 6, 7], [8], [9, 10]]).length / 4 ∧
    (∀ s ∈ (processDocs (PackedDatasetBuilder.new 4 1) [[5, 6, 7], [8], [9, 10]]).shards,
      s.length = 4) ∧
    (processDocs (PackedDatasetBuilder.new 4 1) [[5, 6, 7], [8], [9, 10]]).shards.flatten =
      (sepInterleaved 1 [[5, 6, 7], [8], [9, 10]]).take
        ((sepInterleaved 1 [[5, 6, 7], [8], [9, 10]]).length / 4 * 4) ∧
    (processDocs (PackedDatasetBuilder.new 4 1) [[5, 6, 7], [8], [9, 10]]).buffer =
      (sepInterleaved 1 [[5, 6, 7], [8], [9, 10]]).drop
        ((sepInterleaved 1 [[5, 6, 7], [8], [9, 10]]).length / 4 * 4) ∧
    (processDocs (PackedDatasetBuilder.new 4 1) [[5, 6, 7], [8], [9, 10]]).buffer.length =
      (sepInterleaved 1 [[5, 6, 7], [8], [9, 10]]).length % 4) :=
  ⟨by decide, C1_builder_chunk_packing 4 1 [[5, 6, 7], [8], [9, 10]] (by decide)⟩

/-- **C6**: when a worker finishes its document loop, finalization discards the
remaining buffer (which holds fewer than `chunk_size` tokens), writes no
partial shard, never pads, and adds no shard beyond the last full chunk: the
shard list is unchanged by `finalize` and every shard has length exactly
`chunk_size`. -/
theorem C6_finalize_discards_remainder (chunkSize sepToken : Nat)
    (docs : List (List Nat)) (hpos : 0 < chunkSize) :
    (processDocs (PackedDatasetBuilder.new chunkSize sepToken) docs).finalize.shards =
      (processDocs (PackedDatasetBuilder.new chunkSize sepToken) docs).shards ∧
    (processDocs (PackedDatasetBuilder.new chunkSize sepToken) docs).finalize.buffer = [] ∧
    (processDocs (PackedDatasetBuilder.new chunkSize sepToken) docs).buffer.length < chunkSize ∧
    (∀ s ∈ (processDocs (PackedDatasetBuilder.new chunkSize sepToken) docs).finalize.shards,
      s.length = chunkSize) := by
  refine ⟨rfl, rfl, ?_, ?_⟩
  · exact processDocs_buffer_lt docs _ hpos (by simpa using hpos)
  · intro s hs
    have h := processDocs_shard_mem docs (PackedDatasetBuilder.new chunkSize sepToken) s hs
    rw [PackedDatasetBuilder.new_shards, PackedDatasetBuilder.new_chunk_size] at h
    simp only [List.not_mem_nil, false_or] at h
    exact h

theorem C6_finalize_discards_remainder_witness :
    0 < 4 ∧
    ((processDocs (PackedDatasetBuilder.new 4 1) [[5, 6, 7], [8], [9, 10]]).finalize.shards =
      (processDocs (PackedDatasetBuilder.new 4 1) [[5, 6, 7], [8], [9, 10]]).shards ∧
    (processDocs (PackedDatasetBuilder.new 4 1) [[5, 6, 7], [8], [9, 10]]).finalize.buffer = [] ∧
    (processDocs (PackedDatasetBuilder.new 4 1) [[5, 6, 7], [8], [9, 10]]).buffer.length < 4 ∧
    (∀ s ∈ (processDocs (PackedDatasetBuilder.new 4 1) [[5, 6, 7], [8], [9, 10]]).finalize.shards,
      s.length = 4)) :=
  ⟨by decide, C6_finalize_discards_remainder 4 1 [[5, 6, 7], [8], [9, 10]] (by decide)⟩

/-- The per-group sizes used by `numpy.array_split(filenames, num_processes)`
(`scripts/prepare_wudao.py:85`): for `l.length = len`, the first `len % n`
groups get `len / n + 1` elements and the remaining ones get `len / n`. -/
def arraySplitSizes (len n : Nat) : List Nat :=
  List.replicate (len % n) (len / n + 1) ++ List.replicate (n - len % n) (len / n)

/-- Cut successive groups of the given sizes off the front of `l`. -/
def splitBySizes {α : Type} : List α → List Nat → List (List α)
  | _, [] => []
  | l, s :: ss => l.take s :: splitBySizes (l.drop s) ss

/-- `numpy.array_split(l, n)` (`scripts/prepare_wudao.py:85`): `n` contiguous
groups in original order, of near-equal sizes `arraySplitSizes l.length n`. -/
def array_split {α : Type} (l : List α) (n : Nat) : List (List α) :=
  splitBySizes l (arraySplitSizes l.length n)

theorem length_splitBySizes {α : Type} :
    ∀ (ss : List Nat) (l : List α), (splitBySizes l ss).length = ss.length := by
  intro ss
  induction ss with
  | nil => intro l; rfl
  | cons s ss ih => intro l; simp [splitBySizes, ih]

theorem flatten_splitBySizes {α : Type} :
    ∀ (ss : List Nat) (l : List α), (splitBySizes l ss).flatten = l.take ss.sum := by
  intro ss
  induction ss with
  | nil => intro l; simp [splitBySizes]
  | cons s ss ih =>
    intro l
    simp only [splitBySizes, List.flatten_cons, ih, List.sum_cons]
    rw [List.take_add]

theorem map_length_splitBySizes {α : Type} :
    ∀ (ss : List Nat) (l : List α), ss.sum ≤ l.length →
      (splitBySizes l ss).map List.length = ss := by
  intro ss
  induction ss with
  | nil => intro l _; rfl
  | cons s ss ih =>
    intro l hle
    simp only [List.sum_cons] at hle
    simp only [splitBySizes, List.map_cons, List.length_take]
    have h1 : s ⊓ l.length = s := by omega
    rw [h1, ih (l.drop s) (by simp [List.length_drop]; omega)]

theorem splitBySizes_nil {α : Type} :
    ∀ ss : List Nat, splitBySizes ([] : List α) ss = List.replicate ss.length [] := by
  intro ss
  induction ss with
  | nil => rfl
  | cons s ss ih => simp [splitBySizes, ih, List.replicate_succ]

theorem length_arraySplitSizes (len n : Nat) : (arraySplitSizes len n).length = n ∨ n = 0 := by
  by_cases hn : 0 < n
  · left
    have hr : len % n < n := Nat.mod_lt _ hn
    simp only [arraySplitSizes, List.length_append, List.length_replicate]
    omega
  · right; omega

theorem sum_arraySplitSizes (len n : Nat) (hn : 0 < n) :
    (arraySplitSizes len n).sum = len := by
  have hr : len % n < n := Nat.mod_lt _ hn
  have hdm := Nat.div_add_mod len n
  obtain ⟨m, hm⟩ : ∃ m, n - len % n = m ∧ len % n + m = n := ⟨n - len % n, rfl, by omega⟩
  simp only [arraySplitSizes, List.sum_append, List.sum_replicate, smul_eq_mul, hm.1]
  have hkey : len % n * (len / n + 1) + m * (len / n) =
      (len % n + m) * (len / n) + len % n := by ring
  rw [hkey, hm.2, hdm]

theorem arraySplitSizes_getD (len n i : Nat) (hn : 0 < n) (hi : i < n) :
    (arraySplitSizes len n).getD i 0 = len / n + if i < len % n then 1 else 0 := by
  have hr : len % n < n := Nat.mod_lt _ hn
  by_cases hcase : i < len % n
  · rw [if_pos hcase]
    have hlt : i < (List.replicate (len % n) (len / n + 1)).length := by
      simp [List.length_replicate]; omega
    rw [arraySplitSizes, List.getD_eq_getElem _ _ (by simp [List.length_append]; omega),
      List.getElem_append_left hlt, List.getElem_replicate]
  · rw [if_neg hcase]
    have hge : (List.replicate (len % n) (len / n + 1)).length ≤ i := by
      simp [List.length_replicate]; omega
    rw [arraySplitSizes, List.getD_eq_getElem _ _ (by simp [List.length_append]; omega),
      List.getElem_append_right hge, List.getElem_replicate]
    omega

theorem array_split_length {α : Type} (l : List α) (n : Nat) (hn : 0 < n) :
    (array_split l n).length = n := by
  rw [array_split, length_splitBySizes]
  rcases length_arraySplitSizes l.length n with h | h
  · exact h
  · omega

theorem array_split_flatten {α : Type} (l : List α) (n : Nat) (hn : 0 < n) :
    (array_split l n).flatten = l := by
  rw [array_split, flatten_splitBySizes, sum_arraySplitSizes _ _ hn, List.take_length]

theorem array_split_sizes {α : Type} (l : List α) (n : Nat) (hn : 0 < n) :
    (array_split l n).map List.length = arraySplitSizes l.length n := by
  rw [array_split, map_length_splitBySizes]
  rw [sum_arraySplitSizes _ _ hn]

/-- The `RuntimeError` message raised by a worker on an empty file subset
(`scripts/prepare_wudao.py:43-47`). -/
def runtimeErrorNoFiles : String :=
  "No files matching ./* found at source_path. Make sure you download the data..."

/-- One worker body (`prepare_full`, `scripts/prepare_wudao.py:24-67`) at the
token level.  External collaborators are abstracted: `contents f` is the list of
token arrays obtained from file `f` (json loading plus `tokenizer.encode` of
each row's `content`, lines 60-63).  The worker raises `RuntimeError` when its
file subset is empty (lines 43-47) — before constructing its builder — and
otherwise drives every document of every file, in order, through its own fresh
builder, returning the final builder state.  Destination-directory creation and
tokenizer loading (lines 35-37) are external effects with no token-level
content. -/
def prepare_full (contents : String → List (List Nat)) (chunk_size sep_token : Nat)
    (filenames_subset : List String) : Except String PackedDatasetBuilder :=
  if filenames_subset.isEmpty then
    Except.error runtimeErrorNoFiles
  else
    Except.ok (processDocs (PackedDatasetBuilder.new chunk_size sep_token)
      (filenames_subset.flatMap contents))

/-- A spawned worker process, as constructed by the loop
`for i, subset in enumerate(chunked_filenames): Process(...); p.start()`
(`scripts/prepare_wudao.py:90-93`): its `process_id` and its file subset. -/
structure WorkerProc where
  process_id : Nat
  subset : List String
  deriving Repr, DecidableEq

/-- The sampling step `filenames[:int(len(filenames) * percentage)]`
(`scripts/prepare_wudao.py:81`).  This idealizes Python's IEEE-double
multiplication as exact rational arithmetic, so it is an approximation: binary64
rounding of `len * percentage` can cross an integer boundary (e.g. for `len = 3`
and the double nearest `1/3` the product rounds to exactly `1.0`, so the code
keeps one file while `⌊3 · p⌋ = 0`).  No theorem below depends on the value of
`sampleCount` except at `percentage = 1` or `n = 0`, where binary64 arithmetic
is exact and the idealization is faithful. -/
def sampleCount (n : Nat) (percentage : ℚ) : Nat :=
  (⌊(n : ℚ) * percentage⌋).toNat

/-- Everything one run of the orchestrator `prepare` produces. -/
structure PrepareRun where
  filenames : List String
  chunked_filenames : List (List String)
  workers : List WorkerProc
  results : List (Except String PackedDatasetBuilder)
  reportedSuccess : Bool

/-- The orchestrator `prepare` (`scripts/prepare_wudao.py:70-99`).  It receives
the enumerated file list (the `glob` of line 80 is the external corpus source),
keeps the sampled prefix (line 81), splits it with `numpy.array_split` into
`num_processes` groups (lines 84-85), spawns one worker per group — empty or
not — (lines 90-93), joins them all and then only prints the elapsed time
(lines 95-99).  `p.join()` does not re-raise a child process's exception and no
per-worker outcome is collected, so `prepare` returns normally — reporting
success — whatever the workers did. -/
def prepare (contents : String → List (List Nat)) (filenames : List String)
    (chunk_size : Nat) (percentage : ℚ) (num_processes sep_token : Nat) :
    PrepareRun :=
  let sampled := filenames.take (sampleCount filenames.length percentage)
  let chunked := array_split sampled num_processes
  let workers := chunked.enum.map fun p => WorkerProc.mk p.1 p.2
  let results := workers.map fun w => prepare_full contents chunk_size sep_token w.subset
  ⟨sampled, chunked, workers, results, true⟩

theorem prepare_filenames (contents : String → List (List Nat)) (filenames : List String)
    (chunk_size : Nat) (percentage : ℚ) (num_processes sep_token : Nat) :
    (prepare contents filenames chunk_size percentage num_processes sep_token).filenames =
      filenames.take (sampleCount filenames.length percentage) := rfl

theorem prepare_chunked (contents : String → List (List Nat)) (filenames : List String)
    (chunk_size : Nat) (percentage : ℚ) (num_processes sep_token : Nat) :
    (prepare contents filenames chunk_size percentage num_processes sep_token).chunked_filenames =
      array_split (filenames.take (sampleCount filenames.length percentage)) num_processes := rfl

theorem prepare_workers (contents : String → List (List Nat)) (filenames : List String)
    (chunk_size : Nat) (percentage : ℚ) (num_processes sep_token : Nat) :
    (prepare contents filenames chunk_size percentage num_processes sep_token).workers =
      (prepare contents filenames chunk_size percentage num_processes sep_token).chunked_filenames.enum.map
        (fun p => WorkerProc.mk p.1 p.2) := rfl

theorem prepare_results (contents : String → List (List Nat)) (filenames : List String)
    (chunk_size : Nat) (percentage : ℚ) (num_processes sep_token : Nat) :
    (prepare contents filenames chunk_size percentage num_processes sep_token).results =
      (prepare contents filenames chunk_size percentage num_processes sep_token).workers.map
        (fun w => prepare_full contents chunk_size sep_token w.subset) := rfl

theorem workers_map_subset (chunked : List (List String)) :
    (chunked.enum.map fun p => WorkerProc.mk p.1 p.2).map WorkerProc.subset = chunked := by
  rw [List.map_map]
  have : (WorkerProc.subset ∘ fun p : Nat × List String => WorkerProc.mk p.1 p.2) =
      Prod.snd := rfl
  rw [this, List.enum_map_snd]

theorem workers_length (chunked : List (List String)) :
    (chunked.enum.map fun p => WorkerProc.mk p.1 p.2).length = chunked.length := by
  rw [List.length_map, List.enum_length]

theorem sampleCount_one (n : Nat) : sampleCount n 1 = n := by
  simp [sampleCount]

theorem sampleCount_nil (percentage : ℚ) : sampleCount 0 percentage = 0 := by
  simp [sampleCount]

theorem arraySplitSizes_zero_len (n : Nat) : arraySplitSizes 0 n = List.replicate n 0 := by
  simp [arraySplitSizes]

theorem prepare_chunked_eval (contents : String → List (List Nat)) (filenames : List String)
    (chunk_size : Nat) (percentage : ℚ) (num_processes sep_token : Nat) (k : Nat)
    (hk : sampleCount filenames.length percentage = k) :
    (prepare contents filenames chunk_size percentage num_processes sep_token).chunked_filenames =
      array_split (filenames.take k) num_processes := by
  rw [prepare_chunked, hk]

theorem map_enum_mk_subset {β : Type} (f : List String → β) (chunked : List (List String)) :
    ((chunked.enum.map fun p => WorkerProc.mk p.1 p.2).map fun w => f w.subset) =
      chunked.map f := by
  rw [List.map_map]
  have h1 : ((fun w : WorkerProc => f w.subset) ∘ fun p : Nat × List String =>
      WorkerProc.mk p.1 p.2) = (f ∘ Prod.snd) := rfl
  rw [h1, ← List.map_map, List.enum_map_snd]

theorem prepare_results_eq (contents : String → List (List Nat)) (filenames : List String)
    (chunk_size : Nat) (percentage : ℚ) (num_processes sep_token : Nat) :
    (prepare contents filenames chunk_size percentage num_processes sep_token).results =
      (prepare contents filenames chunk_size percentage num_processes sep_token).chunked_filenames.map
        (prepare_full contents chunk_size sep_token) := by
  rw [prepare_results, prepare_workers]
  exact map_enum_mk_subset _ _

/-- **C4**: `numpy.array_split` partitions the file list into `workerCount`
contiguous groups that preserve the original order with no interleaving: the
group sizes sum to the list's length and the concatenation of the groups in
group order reproduces the original list. -/
theorem C4_partition_contiguous_order (l : List String) (n : Nat) (hn : 0 < n) :
    (array_split l n).length = n ∧
    ((array_split l n).map List.length).sum = l.length ∧
    (array_split l n).flatten = l :=
  ⟨array_split_length l n hn,
   by rw [array_split_sizes l n hn, sum_arraySplitSizes _ _ hn],
   array_split_flatten l n hn⟩

theorem C4_partition_contiguous_order_witness :
    0 < 4 ∧
    ((array_split ["f01", "f02", "f03", "f04", "f05", "f06", "f07", "f08", "f09",
        "f10", "f11"] 4).length = 4 ∧
      ((array_split ["f01", "f02", "f03", "f04", "f05", "f06", "f07", "f08", "f09",
        "f10", "f11"] 4).map List.length).sum =
        (["f01", "f02", "f03", "f04", "f05", "f06", "f07", "f08", "f09",
        "f10", "f11"] : List String).length ∧
      (array_split ["f01", "f02", "f03", "f04", "f05", "f06", "f07", "f08", "f09",
        "f10", "f11"] 4).flatten =
        ["f01", "f02", "f03", "f04", "f05", "f06", "f07", "f08", "f09", "f10", "f11"]) :=
  ⟨by decide,
   C4_partition_contiguous_order
     ["f01", "f02", "f03", "f04", "f05", "f06", "f07", "f08", "f09", "f10", "f11"] 4
     (by decide)⟩

/-- **C7** as stated is false on the code: with 2 sampled files and 3 processes
the partition has one empty group, yet a worker is spawned for all 3 groups —
the number of spawned workers (3) differs from the number of non-empty groups
(2). -/
theorem C7_counterexample :
    (prepare (fun _ => [[5]]) ["a", "b"] 4 1 3 0).workers.length = 3 ∧
    ((prepare (fun _ => [[5]]) ["a", "b"] 4 1 3 0).chunked_filenames.filter
        (fun g => !g.isEmpty)).length = 2 ∧
    (prepare (fun _ => [[5]]) ["a", "b"] 4 1 3 0).workers.length ≠
      ((prepare (fun _ => [[5]]) ["a", "b"] 4 1 3 0).chunked_filenames.filter
        (fun g => !g.isEmpty)).length := by
  have hchunked := prepare_chunked_eval (fun _ => [[5]]) ["a", "b"] 4 1 3 0 2 (sampleCount_one 2)
  refine ⟨?_, ?_, ?_⟩
  · rw [prepare_workers, hchunked]; decide
  · rw [hchunked]; decide
  · rw [prepare_workers, hchunked]; decide

/-- **C7** amended: the orchestrator spawns exactly one worker per group of the
partition — including the empty groups — with worker `i` receiving group `i`. -/
theorem C7_one_worker_per_group (contents : String → List (List Nat))
    (filenames : List String) (chunk_size : Nat) (percentage : ℚ)
    (num_processes sep_token : Nat) :
    (prepare contents filenames chunk_size percentage num_processes sep_token).workers.length =
      (prepare contents filenames chunk_size percentage num_processes sep_token).chunked_filenames.length ∧
    (prepare contents filenames chunk_size percentage num_processes sep_token).workers.map
        WorkerProc.subset =
      (prepare contents filenames chunk_size percentage num_processes sep_token).chunked_filenames := by
  rw [prepare_workers]
  exact ⟨workers_length _, workers_map_subset _⟩

/-- **C2** as stated is false on the code: with an empty file list, `prepare`
performs no emptiness check and spawns a worker for every group (two workers
here, for `num_processes = 2`) instead of failing with an error before spawning
any worker; it even reports success. -/
theorem C2_counterexample :
    (prepare (fun _ => []) [] 2049 1 2 0).workers.length = 2 ∧
    (prepare (fun _ => []) [] 2049 1 2 0).reportedSuccess = true := by
  refine ⟨?_, rfl⟩
  rw [prepare_workers, prepare_chunked_eval (fun _ => []) [] 2049 1 2 0 0 (sampleCount_nil 1)]
  decide

/-- **C2** amended: an empty file list does not make the orchestrator fail
fast.  It spawns one worker for every one of the `num_processes` (empty)
groups; each worker then fails with `RuntimeError` on its empty subset —
without constructing a builder — and the orchestrator still reports success. -/
theorem C2_empty_list_not_failfast (contents : String → List (List Nat))
    (chunk_size : Nat) (percentage : ℚ) (num_processes sep_token : Nat) :
    (prepare contents [] chunk_size percentage num_processes sep_token).workers.length =
      num_processes ∧
    (∀ res ∈ (prepare contents [] chunk_size percentage num_processes sep_token).results,
      res = Except.error runtimeErrorNoFiles) ∧
    (prepare contents [] chunk_size percentage num_processes sep_token).reportedSuccess = true := by
  have hchunked : (prepare contents [] chunk_size percentage num_processes sep_token).chunked_filenames
      = List.replicate num_processes [] := by
    rw [prepare_chunked, List.take_nil, array_split, List.length_nil, arraySplitSizes_zero_len,
      splitBySizes_nil, List.length_replicate]
  refine ⟨?_, ?_, rfl⟩
  · rw [prepare_workers, hchunked, workers_length, List.length_replicate]
  · intro res hres
    rw [prepare_results_eq, hchunked] at hres
    obtain ⟨g, hg, hres⟩ := List.mem_map.mp hres
    have hg' : g = [] := List.eq_of_mem_replicate hg
    rw [← hres, hg']
    rfl

/-- **C3** as stated is false on the code: in this run worker 1 fails with
`RuntimeError` on its empty group, yet the orchestrator reports success (it
only joins the processes and prints the elapsed time). -/
theorem C3_counterexample :
    (prepare (fun _ => [[5]]) ["a"] 4 1 2 0).results.getD 1
        (Except.ok (PackedDatasetBuilder.new 4 0)) =
      Except.error runtimeErrorNoFiles ∧
    (prepare (fun _ => [[5]]) ["a"] 4 1 2 0).reportedSuccess = true := by
  refine ⟨?_, rfl⟩
  rw [prepare_results_eq, prepare_chunked_eval (fun _ => [[5]]) ["a"] 4 1 2 0 1 (sampleCount_one 1)]
  rfl

/-- **C3** amended: the orchestrator never aggregates per-worker outcomes — it
treats joining the processes as the end of the run and reports success (only
elapsed time is printed) regardless of what the workers' results were. -/
theorem C3_reports_success_unconditionally (contents : String → List (List Nat))
    (filenames : List String) (chunk_size : Nat) (percentage : ℚ)
    (num_processes sep_token : Nat) :
    (prepare contents filenames chunk_size percentage num_processes sep_token).reportedSuccess =
      true := rfl

/-- **C9** (implicit): the partition always yields exactly `num_processes`
groups — `cpu_count()` is an environment value, modelled as the parameter
`num_processes` — even when there are fewer files than processes; the group
sizes are non-increasing and differ by at most one (so trailing groups may be
empty), and one worker is started for every group, empty ones included, worker
`i` receiving group `i`. -/
theorem C9_partition_workerCount_groups (contents : String → List (List Nat))
    (filenames : List String) (chunk_size : Nat) (percentage : ℚ)
    (num_processes sep_token : Nat) (hn : 0 < num_processes) :
    (prepare contents filenames chunk_size percentage num_processes sep_token).chunked_filenames.length
      = num_processes ∧
    (prepare contents filenames chunk_size percentage num_processes sep_token).workers.length =
      num_processes ∧
    (prepare contents filenames chunk_size percentage num_processes sep_token).workers.map
        WorkerProc.subset =
      (prepare contents filenames chunk_size percentage num_processes sep_token).chunked_filenames ∧
    (∀ i j : Nat, i ≤ j → j < num_processes →
      ((prepare contents filenames chunk_size percentage num_processes sep_token).chunked_filenames.map
          List.length).getD j 0 ≤
        ((prepare contents filenames chunk_size percentage num_processes sep_token).chunked_filenames.map
          List.length).getD i 0 ∧
      ((prepare contents filenames chunk_size percentage num_processes sep_token).chunked_filenames.map
          List.length).getD i 0 ≤
        ((prepare contents filenames chunk_size percentage num_processes sep_token).chunked_filenames.map
          List.length).getD j 0 + 1) := by
  refine ⟨?_, ?_, ?_, ?_⟩
  · rw [prepare_chunked]
    exact array_split_length _ _ hn
  · rw [prepare_workers, workers_length, prepare_chunked]
    exact array_split_length _ _ hn
  · rw [prepare_workers]
    exact workers_map_subset _
  · intro i j hij hj
    have hi : i < num_processes := lt_of_le_of_lt hij hj
    rw [prepare_chunked, array_split_sizes _ _ hn,
      arraySplitSizes_getD _ _ _ hn hi, arraySplitSizes_getD _ _ _ hn hj]
    by_cases h1 : i < (filenames.take (sampleCount filenames.length percentage)).length % num_processes <;>
      by_cases h2 : j < (filenames.take (sampleCount filenames.length percentage)).length % num_processes <;>
      simp only [h1, h2, if_pos, if_neg, if_true, if_false] <;> omega

theorem C9_partition_workerCount_groups_witness :
    0 < 5 ∧
    ((prepare (fun _ => []) ["a", "b", "c"] 4 1 5 0).chunked_filenames.length = 5 ∧
    (prepare (fun _ => []) ["a", "b", "c"] 4 1 5 0).workers.length = 5 ∧
    (prepare (fun _ => []) ["a", "b", "c"] 4 1 5 0).workers.map WorkerProc.subset =
      (prepare (fun _ => []) ["a", "b", "c"] 4 1 5 0).chunked_filenames ∧
    (∀ i j : Nat, i ≤ j → j < 5 →
      ((prepare (fun _ => []) ["a", "b", "c"] 4 1 5 0).chunked_filenames.map
          List.length).getD j 0 ≤
        ((prepare (fun _ => []) ["a", "b", "c"] 4 1 5 0).chunked_filenames.map
          List.length).getD i 0 ∧
      ((prepare (fun _ => []) ["a", "b", "c"] 4 1 5 0).chunked_filenames.map
          List.length).getD i 0 ≤
        ((prepare (fun _ => []) ["a", "b", "c"] 4 1 5 0).chunked_filenames.map
          List.length).getD j 0 + 1)) :=
  ⟨by decide, C9_partition_workerCount_groups (fun _ => []) ["a", "b", "c"] 4 1 5 0 (by decide)⟩

theorem C2_empty_list_not_failfast_witness :
    (prepare (fun _ => []) [] 4 1 2 0).workers.length = 2 ∧
    (∀ res ∈ (prepare (fun _ => []) [] 4 1 2 0).results,
      res = Except.error runtimeErrorNoFiles) ∧
    (prepare (fun _ => []) [] 4 1 2 0).reportedSuccess = true :=
  C2_empty_list_not_failfast (fun _ => []) 4 1 2 0

/-- Decimal digit characters of `n`, most significant first — the rendering
Python's `f"{n}"` uses.  Fuel-structural (`n + 1` fuel always suffices) so that
closed instances evaluate by `decide`. -/
def natDigitsAux : Nat → Nat → List Char
  | 0, _ => []
  | fuel + 1, n =>
    if n < 10 then [Nat.digitChar n]
    else natDigitsAux fuel (n / 10) ++ [Nat.digitChar (n % 10)]

def natDigits (n : Nat) : List Char := natDigitsAux (n + 1) n

/-- Numeric value of a decimal digit string (left inverse of `natDigits`). -/
def digitsVal (l : List Char) : Nat :=
  l.foldl (fun acc c => 10 * acc + (c.toNat - 48)) 0

theorem digitsVal_append (l : List Char) (c : Char) :
    digitsVal (l ++ [c]) = 10 * digitsVal l + (c.toNat - 48) := by
  simp [digitsVal, List.foldl_append]

theorem digitChar_val : ∀ d < 10, (Nat.digitChar d).toNat - 48 = d := by decide

theorem digitChar_ne_underscore : ∀ d < 10, Nat.digitChar d ≠ '_' := by decide

theorem natDigitsAux_val : ∀ fuel n : Nat, n < fuel →
    digitsVal (natDigitsAux fuel n) = n := by
  intro fuel
  induction fuel with
  | zero => intro n h; omega
  | succ f ih =>
    intro n hn
    by_cases h10 : n < 10
    · simp only [natDigitsAux, if_pos h10]
      have h := digitChar_val n h10
      simp only [digitsVal, List.foldl_cons, List.foldl_nil, Nat.mul_zero, Nat.zero_add]
      exact h
    · simp only [natDigitsAux, if_neg h10]
      rw [digitsVal_append]
      have hrec : n / 10 < f := by
        have h1 : n / 10 < n := Nat.div_lt_self (by omega) (by omega)
        omega
      rw [ih (n / 10) hrec, digitChar_val (n % 10) (Nat.mod_lt _ (by omega))]
      omega

theorem natDigits_val (n : Nat) : digitsVal (natDigits n) = n :=
  natDigitsAux_val (n + 1) n (by omega)

theorem natDigits_inj {m n : Nat} (h : natDigits m = natDigits n) : m = n := by
  have hm := natDigits_val m
  rw [h, natDigits_val] at hm
  omega

theorem natDigitsAux_ne_underscore :
    ∀ (fuel n : Nat) (c : Char), c ∈ natDigitsAux fuel n → c ≠ '_' := by
  intro fuel
  induction fuel with
  | zero => intro n c hc; simp [natDigitsAux] at hc
  | succ f ih =>
    intro n c hc
    by_cases h10 : n < 10
    · simp only [natDigitsAux, if_pos h10, List.mem_singleton] at hc
      subst hc
      exact digitChar_ne_underscore n h10
    · simp only [natDigitsAux, if_neg h10, List.mem_append, List.mem_singleton] at hc
      rcases hc with hc | hc
      · exact ih _ _ hc
      · subst hc
        exact digitChar_ne_underscore _ (Nat.mod_lt _ (by omega))

theorem natDigits_ne_underscore (n : Nat) (c : Char) (hc : c ∈ natDigits n) : c ≠ '_' :=
  natDigitsAux_ne_underscore (n + 1) n c hc

/-- Left zero-padding of a digit string to width `w` (Python's `{:010d}`). -/
def padZeros (w : Nat) (l : List Char) : List Char :=
  List.replicate (w - l.length) '0' ++ l

theorem padZeros_ne_underscore (w n : Nat) (c : Char)
    (hc : c ∈ padZeros w (natDigits n)) : c ≠ '_' := by
  rw [padZeros, List.mem_append] at hc
  rcases hc with hc | hc
  · have h := List.eq_of_mem_replicate hc
    subst h
    decide
  · exact natDigits_ne_underscore n c hc

/-- The builder name each worker passes to its own builder:
`f"{split}_wudao_{process_id}"` (`scripts/prepare_wudao.py:51`). -/
def workerBuilderName (split : String) (process_id : Nat) : String :=
  split ++ "_wudao_" ++ String.mk (natDigits process_id)

/-- Modelled from the spec: §6 — a shard file is "named by a deterministic
scheme combining a run prefix, worker index, and shard index".  The concrete
scheme of `PackedDatasetBuilder` (whose source is not in this snapshot) is
`f"{name}_{shard_index:010d}.bin"`: the builder name, an underscore, the shard
index zero-padded to ten digits, and the `.bin` suffix. -/
def shardFilename (builderName : String) (shard_index : Nat) : String :=
  builderName ++ "_" ++ String.mk (padZeros 10 (natDigits shard_index)) ++ ".bin"

theorem string_mk_data (l : List Char) : (String.mk l).data = l := rfl

theorem append_underscore_inj :
    ∀ a c b d : List Char, '_' ∉ b → '_' ∉ d →
      a ++ '_' :: b = c ++ '_' :: d → a = c ∧ b = d := by
  intro a
  induction a with
  | nil =>
    intro c b d hb hd h
    cases c with
    | nil =>
      simp only [List.nil_append] at h
      injection h with _ h2
      exact ⟨rfl, h2⟩
    | cons y c' =>
      simp only [List.nil_append, List.cons_append] at h
      injection h with _ h2
      exact absurd (h2 ▸ List.mem_append_right c' (List.mem_cons_self '_' d)) hb
  | cons x a' ih =>
    intro c b d hb hd h
    cases c with
    | nil =>
      simp only [List.nil_append, List.cons_append] at h
      injection h with _ h2
      exact absurd (h2 ▸ List.mem_append_right a' (List.mem_cons_self '_' b)) hd
    | cons y c' =>
      simp only [List.cons_append] at h
      injection h with h1 h2
      obtain ⟨hac, hbd⟩ := ih c' b d hb hd h2
      exact ⟨by rw [h1, hac], hbd⟩

theorem shardFilename_data (name : String) (s : Nat) :
    (shardFilename name s).data =
      name.data ++ '_' :: (padZeros 10 (natDigits s) ++ ['.', 'b', 'i', 'n']) := by
  show ((name ++ "_" ++ String.mk (padZeros 10 (natDigits s))) ++ ".bin").data = _
  rw [String.data_append, String.data_append, String.data_append, string_mk_data]
  show name.data ++ ['_'] ++ padZeros 10 (natDigits s) ++ ['.', 'b', 'i', 'n'] = _
  simp [List.append_assoc]

theorem shardFilename_inj (name1 name2 : String) (s1 s2 : Nat) (h : name1 ≠ name2) :
    shardFilename name1 s1 ≠ shardFilename name2 s2 := by
  intro heq
  apply h
  have hd := congrArg String.data heq
  rw [shardFilename_data, shardFilename_data] at hd
  have hnu1 : '_' ∉ padZeros 10 (natDigits s1) ++ ['.', 'b', 'i', 'n'] := by
    intro hmem
    rw [List.mem_append] at hmem
    rcases hmem with hmem | hmem
    · exact padZeros_ne_underscore 10 s1 '_' hmem rfl
    · exact absurd hmem (by decide)
  have hnu2 : '_' ∉ padZeros 10 (natDigits s2) ++ ['.', 'b', 'i', 'n'] := by
    intro hmem
    rw [List.mem_append] at hmem
    rcases hmem with hmem | hmem
    · exact padZeros_ne_underscore 10 s2 '_' hmem rfl
    · exact absurd hmem (by decide)
  obtain ⟨hname, _⟩ := append_underscore_inj name1.data name2.data _ _ hnu1 hnu2 hd
  exact String.ext hname

theorem workerBuilderName_inj (split : String) (i j : Nat) (hij : i ≠ j) :
    workerBuilderName split i ≠ workerBuilderName split j := by
  intro heq
  apply hij
  have hd := congrArg String.data heq
  simp only [workerBuilderName, String.data_append, string_mk_data] at hd
  exact natDigits_inj (List.append_cancel_left hd)

/-- **C5**: every worker builds its builder name from the run prefix and its
own worker index, so any two distinct workers have distinct builder names; and
two builders with different names writing into the same destination directory
never produce the same shard filename, for any shard indices. -/
theorem C5_distinct_names_no_filename_collision :
    (∀ (split : String) (i j : Nat), i ≠ j →
      workerBuilderName split i ≠ workerBuilderName split j) ∧
    (∀ (name1 name2 : String) (s1 s2 : Nat), name1 ≠ name2 →
      shardFilename name1 s1 ≠ shardFilename name2 s2) :=
  ⟨workerBuilderName_inj, shardFilename_inj⟩

theorem C5_distinct_names_no_filename_collision_witness :
    workerBuilderName "train" 0 ≠ workerBuilderName "train" 1 ∧
    shardFilename (workerBuilderName "train" 0) 1 ≠
      shardFilename (workerBuilderName "train" 1) 0 :=
  ⟨C5_distinct_names_no_filename_collision.1 "train" 0 1 (by decide),
   C5_distinct_names_no_filename_collision.2 (workerBuilderName "train" 0)
     (workerBuilderName "train" 1) 1 0 (by decide)⟩

/-- A Python `dict` of top-level key/value pairs, as an insertion-ordered
association list.  The value type is abstract because `Config.from_name`
(`lit_gpt/config.py:79-83`) only copies, updates and reads dicts. -/
abbrev PyDict (α : Type) : Type := List (String × α)

/-- `d[k] = v` on a Python dict: overwrite the existing entry in place if the
key is present, otherwise append the new pair (insertion order). -/
def dictSet {α : Type} (d : PyDict α) (k : String) (v : α) : PyDict α :=
  if d.any fun kv => kv.1 == k then
    d.map fun kv => if kv.1 == k then (k, v) else kv
  else
    d ++ [(k, v)]

/-- `d.update(kwargs)` on a Python dict: successive `dictSet`s in order. -/
def dictUpdate {α : Type} (d kwargs : PyDict α) : PyDict α :=
  kwargs.foldl (fun acc kv => dictSet acc kv.1 kv.2) d

/-- The heap of dict objects.  Python variables hold references — indices into
this store — so `name_to_config` (`lit_gpt/config.py:1426`) maps each preset
name to the index of its dict object, and mutating through one reference would
be visible through every alias.  The model makes the freshness of the
`.copy()` step in `from_name` explicit. -/
structure ConfigStore (α : Type) where
  dicts : List (PyDict α)
  deriving DecidableEq

/-- `Config.from_name` (`lit_gpt/config.py:79-83`):
`conf_dict = name_to_config[name].copy()` allocates a fresh dict object holding
the registry entry's top-level pairs, `conf_dict.update(kwargs)` mutates only
that fresh object, and the `Config` is built from its final pairs.  Returns the
heap after the call together with the pairs the `Config` is built from;
a missing `name` is Python's `KeyError`, modelled as `none`. -/
def Config.from_name {α : Type} (store : ConfigStore α)
    (name_to_config : List (String × Nat)) (name : String) (kwargs : PyDict α) :
    Option (ConfigStore α × PyDict α) :=
  match name_to_config.lookup name with
  | none => none
  | some i =>
    let src := store.dicts.getD i []
    let copyIdx := store.dicts.length
    let store2 : ConfigStore α := ⟨(store.dicts ++ [src]).set copyIdx (dictUpdate src kwargs)⟩
    some (store2, store2.dicts.getD copyIdx [])

/-- **C10**: `Config.from_name` builds the resulting `Config` from a copy of
the stored preset dict, so calling it never mutates the global
`name_to_config` registry: after any successful call, every registry entry
still holds exactly the same top-level key/value pairs as before. -/
theorem C10_from_name_preserves_registry {α : Type} (store : ConfigStore α)
    (name_to_config : List (String × Nat)) (name : String) (kwargs : PyDict α)
    (store2 : ConfigStore α) (conf : PyDict α)
    (hcall : Config.from_name store name_to_config name kwargs = some (store2, conf))
    (wf : ∀ p ∈ name_to_config, p.2 < store.dicts.length) :
    ∀ p ∈ name_to_config, store2.dicts.getD p.2 [] = store.dicts.getD p.2 [] := by
  intro p hp
  have hlt : p.2 < store.dicts.length := wf p hp
  rcases hlook : name_to_config.lookup name with _ | i
  · rw [Config.from_name, hlook] at hcall
    exact absurd hcall (by simp)
  · rw [Config.from_name, hlook] at hcall
    injection hcall with hpair
    have hdicts : store2.dicts =
        (store.dicts ++ [store.dicts.getD i []]).set store.dicts.length
          (dictUpdate (store.dicts.getD i []) kwargs) :=
      (congrArg ConfigStore.dicts (congrArg Prod.fst hpair)).symm
    rw [hdicts]
    have hplen : p.2 < (((store.dicts ++ [store.dicts.getD i []]).set store.dicts.length
        (dictUpdate (store.dicts.getD i []) kwargs))).length := by
      rw [List.length_set, List.length_append]
      simp
      omega
    rw [List.getD_eq_getElem _ _ hplen, List.getElem_set_ne (by omega),
      List.getElem_append_left hlt, List.getD_eq_getElem _ _ hlt]

theorem C10_from_name_preserves_registry_witness :
    Config.from_name (ConfigStore.mk [[("name", 1)]]) [("tiny", 0)] "tiny" [("n_layer", 7)] =
      some (ConfigStore.mk [[("name", 1)], [("name", 1), ("n_layer", 7)]],
        [("name", 1), ("n_layer", 7)]) ∧
    (∀ p ∈ [("tiny", 0)],
      p.2 < (ConfigStore.mk [[("name", 1)]] : ConfigStore Nat).dicts.length) ∧
    ∀ p ∈ [("tiny", 0)],
      (ConfigStore.mk [[("name", 1)], [("name", 1), ("n_layer", 7)]] :
          ConfigStore Nat).dicts.getD p.2 [] =
        (ConfigStore.mk [[("name", 1)]] : ConfigStore Nat).dicts.getD p.2 [] :=
  ⟨by decide, by decide,
   C10_from_name_preserves_registry (ConfigStore.mk [[("name", 1)]]) [("tiny", 0)] "tiny"
     [("n_layer", 7)]
     (ConfigStore.mk [[("name", 1)], [("name", 1), ("n_layer", 7)]])
     [("name", 1), ("n_layer", 7)] (by decide) (by decide)⟩
